import Mathlib

/-!
Shallow embedding of `pytorchmemtracer/ophooks/_memtracer_ophook.py`.

The asynchronous sampling monitor (`AsyncMemoryMonitor`) is modelled as a
pure state machine.  The background sampling task, which in the source loops
`max_usage = max(max_usage, get_sys_memory_used(dev))` while the
`keep_measuring` flag is set, is modelled functionally: the sequence of
values the usage provider returns on the session's ticks is supplied as an
explicit `samples : List ℚ` argument to `start`, and the task's result is
`measure_usage samples` (the fold of `max` over the samples, seeded at `0`,
exactly as in `_measure_usage`).  Timestamps (`time()` values) are passed as
explicit `now : ℚ` arguments.  Memory usages are rationals because the CPU
path of the provider divides by the world size.
-/

/-- Embedding of `AsyncMemoryMonitor._measure_usage`'s accumulation loop:
`max_usage = 0`, then `max_usage = max(max_usage, sample)` for each tick's
sample, and `max_usage` is returned when the stop flag is observed. -/
def measure_usage (samples : List ℚ) : ℚ :=
  samples.foldl max 0

/-- State of `AsyncMemoryMonitor`.  `monitor_thread` models the pending
future: `some samples` holds the provider values the in-flight background
task observes on its ticks; `none` means no pending task. -/
structure AsyncMemoryMonitor where
  keep_measuring : Bool
  monitor_thread : Option (List ℚ)
  interval : ℚ
  time_stamps : List ℚ
  mem_stats : List ℚ
deriving DecidableEq, Repr

/-- Embedding of `AsyncMemoryMonitor.__init__(power)` (default `power=10`).
The interval `1 / (10 ** power)` is written `mkRat 1 (10 ^ power)`, the
same rational in kernel-computable form. -/
def monInit (power : ℕ) : AsyncMemoryMonitor :=
  { keep_measuring := false
    monitor_thread := none
    interval := mkRat 1 (10 ^ power)
    time_stamps := []
    mem_stats := [] }

/-- Embedding of `AsyncMemoryMonitor.set_interval`. -/
def AsyncMemoryMonitor.set_interval (m : AsyncMemoryMonitor) (power : ℕ) :
    AsyncMemoryMonitor :=
  { m with interval := mkRat 1 (10 ^ power) }

/-- Embedding of `AsyncMemoryMonitor.is_measuring`. -/
def AsyncMemoryMonitor.is_measuring (m : AsyncMemoryMonitor) : Bool :=
  m.keep_measuring

/-- Embedding of `AsyncMemoryMonitor.start`: sets `keep_measuring = True`
and submits a fresh `_measure_usage` task (whose ticks will observe
`samples`).  Nothing else of the state is touched. -/
def AsyncMemoryMonitor.start (m : AsyncMemoryMonitor) (samples : List ℚ) :
    AsyncMemoryMonitor :=
  { m with keep_measuring := true, monitor_thread := some samples }

/-- Embedding of `AsyncMemoryMonitor.finish`: if `keep_measuring` is false
it returns `0` and changes nothing; otherwise it clears the flag, joins the
pending task (obtaining the session maximum), appends `time()` and the
maximum to the two series, and returns the maximum. -/
def AsyncMemoryMonitor.finish (m : AsyncMemoryMonitor) (now : ℚ) :
    AsyncMemoryMonitor × ℚ :=
  if m.keep_measuring = false then (m, 0)
  else
    let max_usage := measure_usage (m.monitor_thread.getD [])
    ({ m with
        keep_measuring := false
        monitor_thread := none
        time_stamps := m.time_stamps ++ [now]
        mem_stats := m.mem_stats ++ [max_usage] },
      max_usage)

/-- Python's built-in `min` on a list: `none` on the empty list (where the
source raises `ValueError`), otherwise the least element. -/
def pymin : List ℚ → Option ℚ
  | [] => none
  | x :: xs => some (xs.foldl min x)

/-- State of `MemTracerOpHook`: it owns one `AsyncMemoryMonitor`. -/
structure MemTracerOpHook where
  async_mem_monitor : AsyncMemoryMonitor
deriving DecidableEq, Repr

/-- Embedding of `MemTracerOpHook.__init__`. -/
def hookInit : MemTracerOpHook :=
  ⟨monInit 10⟩

/-- Embedding of `MemTracerOpHook.pre_fwd_exec`: under `module.training`,
finishes a still-measuring session and then starts a new one; otherwise
does nothing. -/
def MemTracerOpHook.pre_fwd_exec (h : MemTracerOpHook) (training : Bool)
    (now : ℚ) (samples : List ℚ) : MemTracerOpHook :=
  if training then
    let m0 := h.async_mem_monitor
    let m1 := if m0.is_measuring then (m0.finish now).1 else m0
    ⟨m1.start samples⟩
  else h

/-- Embedding of `MemTracerOpHook.post_fwd_exec`: under `module.training`,
calls `finish()` unconditionally; otherwise does nothing. -/
def MemTracerOpHook.post_fwd_exec (h : MemTracerOpHook) (training : Bool)
    (now : ℚ) : MemTracerOpHook :=
  if training then ⟨(h.async_mem_monitor.finish now).1⟩ else h

/-- Embedding of `MemTracerOpHook.pre_bwd_exec` (same body as
`pre_fwd_exec` after the `isinstance` assertion). -/
def MemTracerOpHook.pre_bwd_exec (h : MemTracerOpHook) (training : Bool)
    (now : ℚ) (samples : List ℚ) : MemTracerOpHook :=
  if training then
    let m0 := h.async_mem_monitor
    let m1 := if m0.is_measuring then (m0.finish now).1 else m0
    ⟨m1.start samples⟩
  else h

/-- Embedding of `MemTracerOpHook.post_bwd_exec`: under `module.training`,
finishes the session if one is measuring; otherwise does nothing. -/
def MemTracerOpHook.post_bwd_exec (h : MemTracerOpHook) (training : Bool)
    (now : ℚ) : MemTracerOpHook :=
  if training then
    if h.async_mem_monitor.is_measuring then
      ⟨(h.async_mem_monitor.finish now).1⟩
    else h
  else h

/-- Embedding of `MemTracerOpHook.post_iter`: no training guard in the
source — it finishes whenever the monitor is measuring. -/
def MemTracerOpHook.post_iter (h : MemTracerOpHook) (now : ℚ) :
    MemTracerOpHook :=
  if h.async_mem_monitor.is_measuring then
    ⟨(h.async_mem_monitor.finish now).1⟩
  else h

/-- Embedding of `MemTracerOpHook.show_mem_stats`: subtracts
`min(time_stamps)` from every timestamp and `min(mem_stats)` from every
usage, in place, in that order.  `none` models the `ValueError` that
Python's `min` raises on an empty list. -/
def MemTracerOpHook.show_mem_stats (h : MemTracerOpHook) :
    Option MemTracerOpHook :=
  match pymin h.async_mem_monitor.time_stamps with
  | none => none
  | some start_timestamp =>
    let ts := h.async_mem_monitor.time_stamps.map (fun e => e - start_timestamp)
    match pymin h.async_mem_monitor.mem_stats with
    | none => none
    | some min_mem_used =>
      some ⟨{ h.async_mem_monitor with
              time_stamps := ts
              mem_stats :=
                h.async_mem_monitor.mem_stats.map (fun e => e - min_mem_used) }⟩

/-- A hook whose monitor is mid-session: `hookInit` after a training
`pre_fwd_exec` whose session observes the single sample `5`. -/
def hookMeasuring : MemTracerOpHook :=
  hookInit.pre_fwd_exec true 1 [5]

/-- A hook holding the series `timestamps=[5,8,10]`, `usages=[200,150,300]`. -/
def hookEx : MemTracerOpHook :=
  ⟨{ monInit 10 with time_stamps := [5, 8, 10], mem_stats := [200, 150, 300] }⟩

/-- A hook holding the series `timestamps=[2,5]`, `usages=[1,8]`. -/
def hookPre : MemTracerOpHook :=
  ⟨{ monInit 10 with time_stamps := [2, 5], mem_stats := [1, 8] }⟩

/-- `hookPre` after one normalization: `timestamps=[0,3]`, `usages=[0,7]`. -/
def hookNorm : MemTracerOpHook :=
  ⟨{ monInit 10 with time_stamps := [0, 3], mem_stats := [0, 7] }⟩

/-- The parallel-series invariant of `SeriesState`. -/
abbrev seriesInv (m : AsyncMemoryMonitor) : Prop :=
  m.time_stamps.length = m.mem_stats.length

/- Helper lemmas about `List.foldl max` / `List.foldl min`. -/

theorem le_foldl_max (xs : List ℚ) (a : ℚ) : a ≤ xs.foldl max a := by
  induction xs generalizing a with
  | nil => exact le_refl a
  | cons y ys ih => exact le_trans (le_max_left a y) (ih (max a y))

theorem mem_le_foldl_max (xs : List ℚ) (a x : ℚ) (hx : x ∈ xs) :
    x ≤ xs.foldl max a := by
  induction xs generalizing a with
  | nil => cases hx
  | cons y ys ih =>
    rcases List.mem_cons.mp hx with h | h
    · subst h
      exact le_trans (le_max_right a x) (le_foldl_max ys (max a x))
    · exact ih (max a y) h

theorem foldl_max_eq_or_mem (xs : List ℚ) (a : ℚ) :
    xs.foldl max a = a ∨ xs.foldl max a ∈ xs := by
  induction xs generalizing a with
  | nil => exact Or.inl rfl
  | cons y ys ih =>
    have hstep : (y :: ys).foldl max a = ys.foldl max (max a y) := rfl
    rcases ih (max a y) with h | h
    · have h2 : (y :: ys).foldl max a = max a y := hstep.trans h
      rcases max_choice a y with hm | hm
      · exact Or.inl (h2.trans hm)
      · exact Or.inr (by rw [h2, hm]; exact List.mem_cons_self y ys)
    · exact Or.inr (List.mem_cons_of_mem y (by rw [hstep]; exact h))

theorem foldl_min_le_self (xs : List ℚ) (a : ℚ) : xs.foldl min a ≤ a := by
  induction xs generalizing a with
  | nil => exact le_refl a
  | cons y ys ih => exact le_trans (ih (min a y)) (min_le_left a y)

theorem foldl_min_le_mem (xs : List ℚ) (a x : ℚ) (hx : x ∈ xs) :
    xs.foldl min a ≤ x := by
  induction xs generalizing a with
  | nil => cases hx
  | cons y ys ih =>
    rcases List.mem_cons.mp hx with h | h
    · subst h
      exact le_trans (foldl_min_le_self ys (min a x)) (min_le_right a x)
    · exact ih (min a y) h

theorem foldl_min_eq_or_mem (xs : List ℚ) (a : ℚ) :
    xs.foldl min a = a ∨ xs.foldl min a ∈ xs := by
  induction xs generalizing a with
  | nil => exact Or.inl rfl
  | cons y ys ih =>
    have hstep : (y :: ys).foldl min a = ys.foldl min (min a y) := rfl
    rcases ih (min a y) with h | h
    · have h2 : (y :: ys).foldl min a = min a y := hstep.trans h
      rcases min_choice a y with hm | hm
      · exact Or.inl (h2.trans hm)
      · exact Or.inr (by rw [h2, hm]; exact List.mem_cons_self y ys)
    · exact Or.inr (List.mem_cons_of_mem y (by rw [hstep]; exact h))

/- Helper lemmas about `pymin`. -/

theorem pymin_mem (l : List ℚ) (a : ℚ) (h : pymin l = some a) : a ∈ l := by
  cases l with
  | nil => cases h
  | cons x xs =>
    have ha : xs.foldl min x = a := Option.some.inj h
    rcases foldl_min_eq_or_mem xs x with he | he
    · rw [← ha, he]; exact List.mem_cons_self x xs
    · rw [← ha]; exact List.mem_cons_of_mem x he

theorem pymin_le (l : List ℚ) (a x : ℚ) (h : pymin l = some a) (hx : x ∈ l) :
    a ≤ x := by
  cases l with
  | nil => cases h
  | cons y ys =>
    have ha : ys.foldl min y = a := Option.some.inj h
    rcases List.mem_cons.mp hx with hm | hm
    · rw [← ha, hm]; exact foldl_min_le_self ys y
    · rw [← ha]; exact foldl_min_le_mem ys y x hm

theorem foldl_min_map_sub (xs : List ℚ) (a c : ℚ) :
    (xs.map (fun e => e - c)).foldl min (a - c) = xs.foldl min a - c := by
  induction xs generalizing a with
  | nil => rfl
  | cons y ys ih =>
    simp only [List.map_cons, List.foldl_cons, min_sub_sub_right]
    exact ih (min a y)

theorem pymin_map_sub (l : List ℚ) (c : ℚ) :
    pymin (l.map (fun e => e - c)) = (pymin l).map (fun e => e - c) := by
  cases l with
  | nil => rfl
  | cons x xs =>
    simp only [List.map_cons, pymin, Option.map_some]
    exact congrArg some (foldl_min_map_sub xs x c)

/-- C1 (counterexample): on the source, `start()` called while the monitor
is Measuring does not implicitly `finish()` the prior session.  Concretely,
after `start` has made the monitor Measuring, a second `start` with no
intervening `finish` records zero series entries — not the "exactly one
extra series entry" the claim requires. -/
theorem c1_start_twice_counterexample :
    ((monInit 10).start [5]).keep_measuring = true
    ∧ (((monInit 10).start [5]).start [7]).time_stamps = []
    ∧ (((monInit 10).start [5]).start [7]).mem_stats = []
    ∧ (((monInit 10).start [5]).start [7]).mem_stats.length ≠ 1 := by
  decide

/-- C1 (amended): `start()` called while the monitor is Measuring does not
close out the prior session: it leaves both series untouched, replaces the
tracked background task with the new one, and stays Measuring, so calling
`start()` twice in a row records no series entry.  (The implicit
finish-before-start behaviour lives in the sequencer's pre-phase handlers,
not in `start()` itself.) -/
theorem c1_start_while_measuring_keeps_series (m : AsyncMemoryMonitor)
    (samples : List ℚ) (h : m.keep_measuring = true) :
    (m.start samples).time_stamps = m.time_stamps
    ∧ (m.start samples).mem_stats = m.mem_stats
    ∧ (m.start samples).keep_measuring = true
    ∧ (m.start samples).monitor_thread = some samples :=
  ⟨rfl, rfl, rfl, rfl⟩

/-- Witness for the amended C1 at the Measuring state `(monInit 10).start [5]`. -/
theorem c1_start_while_measuring_keeps_series_witness :
    ((monInit 10).start [5]).keep_measuring = true
    ∧ ((((monInit 10).start [5]).start [7]).time_stamps
        = ((monInit 10).start [5]).time_stamps
      ∧ (((monInit 10).start [5]).start [7]).mem_stats
        = ((monInit 10).start [5]).mem_stats
      ∧ (((monInit 10).start [5]).start [7]).keep_measuring = true
      ∧ (((monInit 10).start [5]).start [7]).monitor_thread = some [7]) :=
  ⟨by decide,
   c1_start_while_measuring_keeps_series ((monInit 10).start [5]) [7] (by decide)⟩

/-- C2: `finish()` on an Idle monitor (in particular a fresh one) is a
no-op returning `0`, appending nothing to the series. -/
theorem c2_finish_idle_noop (m : AsyncMemoryMonitor) (now : ℚ)
    (h : m.keep_measuring = false) :
    m.finish now = (m, 0) := by
  simp [AsyncMemoryMonitor.finish, h]

/-- Witness for C2 on the fresh monitor `monInit 10`. -/
theorem c2_finish_idle_noop_witness :
    (monInit 10).keep_measuring = false
    ∧ (monInit 10).finish 3 = (monInit 10, 0) :=
  ⟨by decide, c2_finish_idle_noop (monInit 10) 3 (by decide)⟩

/-- C3: `finish()` while Measuring clears the flag, appends exactly one
`(timestamp, maxObserved)` pair — one element to each sequence — and
returns the appended maximum; in particular `start` immediately followed by
`finish` grows both sequences by exactly 1 and returns the maximum of the
session's samples. -/
theorem c3_finish_measuring_appends (m0 m : AsyncMemoryMonitor)
    (samples : List ℚ) (now : ℚ) (h : m.keep_measuring = true) :
    ((m.finish now).1.keep_measuring = false
      ∧ (m.finish now).1.time_stamps = m.time_stamps ++ [now]
      ∧ (m.finish now).1.mem_stats = m.mem_stats ++ [(m.finish now).2]
      ∧ (m.finish now).1.time_stamps.length = m.time_stamps.length + 1
      ∧ (m.finish now).1.mem_stats.length = m.mem_stats.length + 1)
    ∧ ((m0.start samples).finish now).2 = measure_usage samples
    ∧ ((m0.start samples).finish now).1.time_stamps.length
        = m0.time_stamps.length + 1
    ∧ ((m0.start samples).finish now).1.mem_stats.length
        = m0.mem_stats.length + 1 := by
  simp [AsyncMemoryMonitor.finish, AsyncMemoryMonitor.start, h]

/-- Witness for C3 at the Measuring state `(monInit 10).start [4]`. -/
theorem c3_finish_measuring_appends_witness :
    ((monInit 10).start [4]).keep_measuring = true
    ∧ (((monInit 10).start [4]).finish 3).1.mem_stats.length
        = ((monInit 10).start [4]).mem_stats.length + 1
    ∧ (((monInit 11).start [9]).finish 3).2 = measure_usage [9] :=
  ⟨by decide,
   (c3_finish_measuring_appends (monInit 11) ((monInit 10).start [4]) [9] 3
      (by decide)).1.2.2.2.2,
   (c3_finish_measuring_appends (monInit 11) ((monInit 10).start [4]) [9] 3
      (by decide)).2.1⟩

/-- C5: the background task seeds its running maximum at `0` and folds
`max` over the provider's tick samples, so the value handed to `finish` is
the maximum observed sample (every sample is `≤` it, and it is either `0`
or one of the samples); on the tick sequence `[10, 50, 30, 70]` a
`start`/`finish` session returns `70`. -/
theorem c5_measure_usage_is_max (samples : List ℚ) (now x : ℚ)
    (hx : x ∈ samples) :
    measure_usage [] = 0
    ∧ 0 ≤ measure_usage samples
    ∧ x ≤ measure_usage samples
    ∧ (measure_usage samples = 0 ∨ measure_usage samples ∈ samples)
    ∧ measure_usage [10, 50, 30, 70] = 70
    ∧ (((monInit 10).start [10, 50, 30, 70]).finish now).2 = 70 := by
  refine ⟨rfl, le_foldl_max samples 0, mem_le_foldl_max samples 0 x hx,
    foldl_max_eq_or_mem samples 0, by decide, rfl⟩

/-- Witness for C5 with the sample `50` of the tick sequence `[10, 50, 30, 70]`. -/
theorem c5_measure_usage_is_max_witness :
    (50 : ℚ) ∈ ([10, 50, 30, 70] : List ℚ)
    ∧ (50 : ℚ) ≤ measure_usage [10, 50, 30, 70]
    ∧ measure_usage [10, 50, 30, 70] = 70 :=
  ⟨by decide,
   (c5_measure_usage_is_max [10, 50, 30, 70] 3 50 (by decide)).2.2.1,
   (c5_measure_usage_is_max [10, 50, 30, 70] 3 50 (by decide)).2.2.2.2.1⟩

/- Supporting lemmas for the invariants of the series. -/

theorem start_preserves_seriesInv (m : AsyncMemoryMonitor) (samples : List ℚ)
    (h : seriesInv m) : seriesInv (m.start samples) := h

theorem finish_preserves_seriesInv (m : AsyncMemoryMonitor) (now : ℚ)
    (h : seriesInv m) : seriesInv (m.finish now).1 := by
  cases hk : m.keep_measuring with
  | false => simpa [AsyncMemoryMonitor.finish, hk] using h
  | true => simp [AsyncMemoryMonitor.finish, hk, seriesInv, h]

theorem show_mem_stats_eq (h : MemTracerOpHook) (t0 u0 : ℚ)
    (ht : pymin h.async_mem_monitor.time_stamps = some t0)
    (hu : pymin h.async_mem_monitor.mem_stats = some u0) :
    h.show_mem_stats = some ⟨{ h.async_mem_monitor with
        time_stamps := h.async_mem_monitor.time_stamps.map (fun e => e - t0)
        mem_stats := h.async_mem_monitor.mem_stats.map (fun e => e - u0) }⟩ := by
  unfold MemTracerOpHook.show_mem_stats
  simp only [ht, hu]

theorem show_mem_stats_lengths (h h' : MemTracerOpHook)
    (hn : h.show_mem_stats = some h') :
    h'.async_mem_monitor.time_stamps.length
        = h.async_mem_monitor.time_stamps.length
    ∧ h'.async_mem_monitor.mem_stats.length
        = h.async_mem_monitor.mem_stats.length := by
  unfold MemTracerOpHook.show_mem_stats at hn
  cases ht : pymin h.async_mem_monitor.time_stamps with
  | none => simp [ht] at hn
  | some t0 =>
    cases hu : pymin h.async_mem_monitor.mem_stats with
    | none => simp [ht, hu] at hn
    | some u0 =>
      simp only [ht, hu] at hn
      have hrec := Option.some.inj hn
      subst hrec
      simp [List.length_map]

/-- C6: for a non-empty series, `show_mem_stats` subtracts the minimum
timestamp `t0` from every timestamp and the minimum usage `u0` from every
usage, in place: `t0` and `u0` really are the minima (members that bound
every element below), and the rewritten state is exactly the element-wise
`(t - t0, u - u0)` series. -/
theorem c6_normalize_subtracts_minima (h : MemTracerOpHook) (t0 u0 : ℚ)
    (ht : pymin h.async_mem_monitor.time_stamps = some t0)
    (hu : pymin h.async_mem_monitor.mem_stats = some u0) :
    (t0 ∈ h.async_mem_monitor.time_stamps
      ∧ ∀ x, x ∈ h.async_mem_monitor.time_stamps → t0 ≤ x)
    ∧ (u0 ∈ h.async_mem_monitor.mem_stats
      ∧ ∀ x, x ∈ h.async_mem_monitor.mem_stats → u0 ≤ x)
    ∧ h.show_mem_stats = some ⟨{ h.async_mem_monitor with
        time_stamps := h.async_mem_monitor.time_stamps.map (fun e => e - t0)
        mem_stats := h.async_mem_monitor.mem_stats.map (fun e => e - u0) }⟩ := by
  exact ⟨⟨pymin_mem _ _ ht, fun x hx => pymin_le _ _ _ ht hx⟩,
    ⟨pymin_mem _ _ hu, fun x hx => pymin_le _ _ _ hu hx⟩,
    show_mem_stats_eq h t0 u0 ht hu⟩

/-- Witness for C6 on `timestamps=[5,8,10]`, `usages=[200,150,300]`,
yielding `timestamps=[0,3,5]`, `usages=[50,0,150]`. -/
theorem c6_normalize_subtracts_minima_witness :
    pymin hookEx.async_mem_monitor.time_stamps = some 5
    ∧ pymin hookEx.async_mem_monitor.mem_stats = some 150
    ∧ hookEx.show_mem_stats
        = some ⟨{ hookEx.async_mem_monitor with
            time_stamps := [0, 3, 5], mem_stats := [50, 0, 150] }⟩ :=
  ⟨by decide, by decide,
   ((c6_normalize_subtracts_minima hookEx 5 150 (by decide) (by decide)).2.2).trans
     (by norm_num [hookEx, monInit])⟩

/-- C7: `show_mem_stats` on a series with zero recorded entries reports the
defined error (the `ValueError` of `min([])`, modelled as `none`) — it does
not silently proceed or default the minimum to `0`. -/
theorem c7_normalize_empty_series_error (h : MemTracerOpHook)
    (he : h.async_mem_monitor.time_stamps = []) :
    h.show_mem_stats = none := by
  unfold MemTracerOpHook.show_mem_stats
  simp only [he, pymin]

/-- Witness for C7 on the fresh hook (empty series). -/
theorem c7_normalize_empty_series_error_witness :
    hookInit.async_mem_monitor.time_stamps = []
    ∧ hookInit.show_mem_stats = none :=
  ⟨by decide, c7_normalize_empty_series_error hookInit (by decide)⟩

/-- C8: the two parallel sequences of the series always have equal length:
the invariant holds of a fresh monitor and is preserved by `start`,
`set_interval`, `finish`, `show_mem_stats` and all five sequencer handlers;
moreover `start`, `set_interval` and `show_mem_stats` do not grow the
series (the sequences grow only through `finish`). -/
theorem c8_series_invariant (power p : ℕ) (m : AsyncMemoryMonitor)
    (hk : MemTracerOpHook) (samples : List ℚ) (now : ℚ) (tr : Bool)
    (hm : seriesInv m) (hh : seriesInv hk.async_mem_monitor) :
    seriesInv (monInit power)
    ∧ seriesInv (m.start samples)
    ∧ (m.start samples).time_stamps = m.time_stamps
    ∧ (m.start samples).mem_stats = m.mem_stats
    ∧ seriesInv (m.set_interval p)
    ∧ (m.set_interval p).time_stamps = m.time_stamps
    ∧ (m.set_interval p).mem_stats = m.mem_stats
    ∧ seriesInv (m.finish now).1
    ∧ (∀ h', MemTracerOpHook.show_mem_stats ⟨m⟩ = some h' →
        seriesInv h'.async_mem_monitor
        ∧ h'.async_mem_monitor.time_stamps.length = m.time_stamps.length)
    ∧ seriesInv (hk.pre_fwd_exec tr now samples).async_mem_monitor
    ∧ seriesInv (hk.post_fwd_exec tr now).async_mem_monitor
    ∧ seriesInv (hk.pre_bwd_exec tr now samples).async_mem_monitor
    ∧ seriesInv (hk.post_bwd_exec tr now).async_mem_monitor
    ∧ seriesInv (hk.post_iter now).async_mem_monitor := by
  refine ⟨rfl, hm, rfl, rfl, hm, rfl, rfl, finish_preserves_seriesInv m now hm,
    ?_, ?_, ?_, ?_, ?_, ?_⟩
  · intro h' hn
    have hl := show_mem_stats_lengths ⟨m⟩ h' hn
    exact ⟨hl.1.trans (hm.trans hl.2.symm), hl.1⟩
  · unfold MemTracerOpHook.pre_fwd_exec
    cases tr with
    | false => simpa using hh
    | true =>
      cases hms : hk.async_mem_monitor.is_measuring with
      | false => simpa [hms] using hh
      | true =>
        simpa [hms] using
          finish_preserves_seriesInv hk.async_mem_monitor now hh
  · unfold MemTracerOpHook.post_fwd_exec
    cases tr with
    | false => simpa using hh
    | true =>
      simpa using finish_preserves_seriesInv hk.async_mem_monitor now hh
  · unfold MemTracerOpHook.pre_bwd_exec
    cases tr with
    | false => simpa using hh
    | true =>
      cases hms : hk.async_mem_monitor.is_measuring with
      | false => simpa [hms] using hh
      | true =>
        simpa [hms] using
          finish_preserves_seriesInv hk.async_mem_monitor now hh
  · unfold MemTracerOpHook.post_bwd_exec
    cases tr with
    | false => simpa using hh
    | true =>
      cases hms : hk.async_mem_monitor.is_measuring with
      | false => simpa [hms] using hh
      | true =>
        simpa [hms] using
          finish_preserves_seriesInv hk.async_mem_monitor now hh
  · unfold MemTracerOpHook.post_iter
    cases hms : hk.async_mem_monitor.is_measuring with
    | false => simpa [hms] using hh
    | true =>
      simpa [hms] using
        finish_preserves_seriesInv hk.async_mem_monitor now hh

/-- Witness for C8 at a fresh monitor and fresh hook. -/
theorem c8_series_invariant_witness :
    seriesInv (monInit 10)
    ∧ seriesInv ((monInit 10).finish 2).1
    ∧ seriesInv (hookInit.post_iter 2).async_mem_monitor :=
  ⟨(c8_series_invariant 10 2 (monInit 10) hookInit [1] 2 true (by decide)
      (by decide)).1,
   (c8_series_invariant 10 2 (monInit 10) hookInit [1] 2 true (by decide)
      (by decide)).2.2.2.2.2.2.2.1,
   (c8_series_invariant 10 2 (monInit 10) hookInit [1] 2 true (by decide)
      (by decide)).2.2.2.2.2.2.2.2.2.2.2.2.2⟩

/-- C9 (counterexample): the end-of-iteration handler `post_iter` takes no
training flag in the source, so it cannot be a no-op in non-training
contexts: invoked while the monitor is still Measuring (state
`hookMeasuring`, reachable via a training `pre_fwd_exec` that was never
closed), it finishes the stale session and appends a series entry — a side
effect — regardless of any training state of the enclosing context. -/
theorem c9_post_iter_counterexample :
    hookMeasuring.post_iter 7 ≠ hookMeasuring
    ∧ (hookMeasuring.post_iter 7).async_mem_monitor.mem_stats.length
        = hookMeasuring.async_mem_monitor.mem_stats.length + 1 := by
  decide

/-- C9 (amended): when `module.training` is false, the four module-level
handlers (`pre_fwd_exec`, `post_fwd_exec`, `pre_bwd_exec`,
`post_bwd_exec`) are no-ops leaving the hook (and hence the monitor state)
unchanged; the end-of-iteration handler `post_iter`, however, receives no
training flag: it is a no-op exactly when the monitor is Idle, and whenever
the monitor is Measuring it calls `finish()` regardless of training
state. -/
theorem c9_handlers_not_training (h : MemTracerOpHook) (now : ℚ)
    (samples : List ℚ) :
    h.pre_fwd_exec false now samples = h
    ∧ h.post_fwd_exec false now = h
    ∧ h.pre_bwd_exec false now samples = h
    ∧ h.post_bwd_exec false now = h
    ∧ (h.async_mem_monitor.keep_measuring = false → h.post_iter now = h)
    ∧ (h.async_mem_monitor.keep_measuring = true →
        h.post_iter now = ⟨(h.async_mem_monitor.finish now).1⟩) := by
  refine ⟨rfl, rfl, rfl, rfl, ?_, ?_⟩
  · intro him
    unfold MemTracerOpHook.post_iter
    simp [AsyncMemoryMonitor.is_measuring, him]
  · intro him
    unfold MemTracerOpHook.post_iter
    simp [AsyncMemoryMonitor.is_measuring, him]

/-- Witness for the amended C9 at the fresh (Idle) hook. -/
theorem c9_handlers_not_training_witness :
    hookInit.pre_fwd_exec false 3 [2] = hookInit
    ∧ hookInit.post_iter 3 = hookInit :=
  ⟨(c9_handlers_not_training hookInit 3 [2]).1,
   (c9_handlers_not_training hookInit 3 [2]).2.2.2.2.1 (by decide)⟩

/-- C10: normalization is idempotent on a non-empty series: after one
successful `show_mem_stats`, the minimum timestamp and the minimum usage
are both `0`, and applying `show_mem_stats` again returns the same state
unchanged. -/
theorem c10_normalize_idempotent (h h' : MemTracerOpHook)
    (hn : h.show_mem_stats = some h') :
    pymin h'.async_mem_monitor.time_stamps = some 0
    ∧ pymin h'.async_mem_monitor.mem_stats = some 0
    ∧ h'.show_mem_stats = some h' := by
  unfold MemTracerOpHook.show_mem_stats at hn
  cases ht : pymin h.async_mem_monitor.time_stamps with
  | none => simp [ht] at hn
  | some t0 =>
    cases hu : pymin h.async_mem_monitor.mem_stats with
    | none => simp [ht, hu] at hn
    | some u0 =>
      simp only [ht, hu] at hn
      have hrec := Option.some.inj hn
      subst hrec
      have hts : pymin (h.async_mem_monitor.time_stamps.map (fun e => e - t0))
          = some 0 := by
        rw [pymin_map_sub, ht]
        exact congrArg some (sub_self t0)
      have hms : pymin (h.async_mem_monitor.mem_stats.map (fun e => e - u0))
          = some 0 := by
        rw [pymin_map_sub, hu]
        exact congrArg some (sub_self u0)
      refine ⟨hts, hms, ?_⟩
      unfold MemTracerOpHook.show_mem_stats
      simp only [hts, hms, sub_zero, List.map_id']

/-- Witness for C10 on the series `timestamps=[2,5]`, `usages=[1,8]`, whose
normalization `timestamps=[0,3]`, `usages=[0,7]` is a fixed point. -/
theorem c10_normalize_idempotent_witness :
    hookPre.show_mem_stats = some hookNorm
    ∧ hookNorm.show_mem_stats = some hookNorm := by
  have h1 : hookPre.show_mem_stats = some hookNorm :=
    (show_mem_stats_eq hookPre 2 1 (by decide) (by decide)).trans
      (by norm_num [hookPre, hookNorm, monInit])
  exact ⟨h1, (c10_normalize_idempotent hookPre hookNorm h1).2.2⟩
